import Mathlib

/-!
Shallow embedding of the box-dj turntable velocity-to-playback-rate
controller (files `rpi/config.py`, `rpi/i2c.py`, `rpi/mixer.py`).

Modelling conventions:
* Python `float` arithmetic is modelled with exact rationals (`ℚ`); the
  quantities involved (millisecond timestamps, encoder counts, small
  configuration constants) stay far from any float-rounding boundary in
  every statement below.
* Encoder positions and device timestamps are integers (`ℤ`), as produced
  by the I2C decoding layer (`struct.unpack` of int32/uint32 fields).
* Python `None` fields are modelled with `Option`.
* Mutation is modelled by explicit state passing: a method that mutates
  `self` becomes a function returning the new state, paired with the list
  of writes it performed on the external playback sink
  (`set_property` calls on the GStreamer elements).
* `collections.deque(maxlen=n)` is modelled by `dequeAppend`: append on
  the right, evict on the left when the length would exceed `n`.
-/

namespace BoxDJ

/-! ### Configuration constants, from `rpi/config.py` -/

def VELOCITY_WINDOW_SIZE : ℕ := 10
def MIN_PLAYBACK_RATE : ℚ := 0
def MAX_PLAYBACK_RATE : ℚ := 3
def VELOCITY_SCALE : ℚ := 100
def VELOCITY_TIMEOUT_MS : ℚ := 500
def DEFAULT_VOLUME : ℚ := 1
def NORMAL_SPEED_MIN : ℚ := -120
def NORMAL_SPEED_MAX : ℚ := -80

/-- `deque(maxlen := maxlen)` append: add `x` on the right, dropping from the
left whatever exceeds the capacity. -/
def dequeAppend (xs : List α) (maxlen : ℕ) (x : α) : List α :=
  let ys := xs ++ [x]
  if maxlen < ys.length then ys.drop (ys.length - maxlen) else ys

/-! ### `PredictiveVelocityTracker` (`rpi/i2c.py`)

The host clock read `time.time() * 1000` is passed in explicitly as
`current_time_ms`. -/

structure PredictiveVelocityTracker where
  last_position : Option ℤ
  last_timestamp : Option ℤ
  predicted_velocity : ℚ
  last_velocity_update_time : Option ℚ
  timeout_ms : ℚ
deriving Repr, DecidableEq

def PredictiveVelocityTracker.mk0 (timeout_ms : ℚ := VELOCITY_TIMEOUT_MS) :
    PredictiveVelocityTracker :=
  { last_position := none
    last_timestamp := none
    predicted_velocity := 0
    last_velocity_update_time := none
    timeout_ms := timeout_ms }

/-- `PredictiveVelocityTracker.update(position, timestamp)`.  Returns the
predicted velocity (counts/second) and the updated tracker. -/
def PredictiveVelocityTracker.update (t : PredictiveVelocityTracker)
    (position : ℤ) (timestamp : ℤ) (current_time_ms : ℚ) :
    ℚ × PredictiveVelocityTracker :=
  match t.last_position with
  | none =>
      (0, { t with
              last_position := some position
              last_timestamp := some timestamp
              last_velocity_update_time := some current_time_ms })
  | some lp =>
      if position ≠ lp then
        let delta_pos : ℚ := ((position : ℚ) - (lp : ℚ))
        let delta_time : ℚ := ((timestamp : ℚ) - ((t.last_timestamp.getD 0 : ℤ) : ℚ)) / 1000
        let t1 :=
          if 1/1000 < delta_time then
            { t with
                predicted_velocity := delta_pos / delta_time
                last_velocity_update_time := some current_time_ms }
          else t
        let t2 := { t1 with
                      last_position := some position
                      last_timestamp := some timestamp }
        (t2.predicted_velocity, t2)
      else
        let time_since_last_change := current_time_ms - (t.last_velocity_update_time.getD 0)
        if t.timeout_ms < time_since_last_change then
          (0, { t with predicted_velocity := 0 })
        else
          (t.predicted_velocity, t)

/-- Feed a list of `(position, timestamp, current_time_ms)` samples through
the tracker, collecting the returned velocity estimates. -/
def PredictiveVelocityTracker.runOutputs (t : PredictiveVelocityTracker) :
    List (ℤ × ℤ × ℚ) → List ℚ
  | [] => []
  | s :: rest =>
      let r := t.update s.1 s.2.1 s.2.2
      r.1 :: r.2.runOutputs rest

/-- The C1 scenario: positions `[0,0,5,5,12]` at device timestamps
`[0,20,40,60,80]` ms; the host clock is taken to advance in step with the
device clock (20 ms per poll, so the 500 ms timeout never fires). -/
def c1Samples : List (ℤ × ℤ × ℚ) :=
  [(0, 0, 0), (0, 20, 20), (5, 40, 40), (5, 60, 60), (12, 80, 80)]

/-! ### `EncoderSmoother` (`rpi/i2c.py`)

Sliding-window velocity smoothing: ring buffers (`deque(maxlen=window_size)`)
of recent positions and timestamps. -/

structure EncoderSmoother where
  positions : List ℤ
  timestamps : List ℤ
  window_size : ℕ
  last_velocity : ℚ
deriving Repr, DecidableEq

def EncoderSmoother.mk0 (window_size : ℕ := VELOCITY_WINDOW_SIZE) : EncoderSmoother :=
  { positions := [], timestamps := [], window_size := window_size, last_velocity := 0 }

/-- `EncoderSmoother.update(position, timestamp)`: append the sample and
return the smoothed velocity together with the updated smoother.
`positions[-1]` and `positions[0]` are rendered by `getLastD` / `headD`;
both accesses are guarded in the source by the 2-sample minimum. -/
def EncoderSmoother.update (s : EncoderSmoother) (position : ℤ) (timestamp : ℤ) :
    ℚ × EncoderSmoother :=
  let positions := dequeAppend s.positions s.window_size position
  let timestamps := dequeAppend s.timestamps s.window_size timestamp
  let s1 := { s with positions := positions, timestamps := timestamps }
  if positions.length < 2 then
    (0, s1)
  else
    let delta_pos : ℚ := ((positions.getLastD 0 : ℤ) : ℚ) - ((positions.headD 0 : ℤ) : ℚ)
    let delta_time : ℚ := (((timestamps.getLastD 0 : ℤ) : ℚ) - ((timestamps.headD 0 : ℤ) : ℚ)) / 1000
    if 1/1000 < delta_time then
      let velocity := delta_pos / delta_time
      (velocity, { s1 with last_velocity := velocity })
    else
      (s1.last_velocity, s1)

/-- Final smoother state after feeding a list of `(position, timestamp)`
samples. -/
def EncoderSmoother.runState (s : EncoderSmoother) (l : List (ℤ × ℤ)) : EncoderSmoother :=
  l.foldl (fun st pt => (st.update pt.1 pt.2).2) s

/-- The sequence of velocities returned while feeding a list of
`(position, timestamp)` samples. -/
def EncoderSmoother.runOutputs (s : EncoderSmoother) : List (ℤ × ℤ) → List ℚ
  | [] => []
  | pt :: rest =>
      let r := s.update pt.1 pt.2
      r.1 :: r.2.runOutputs rest

/-! ### `EncoderReader` error counters (`rpi/i2c.py`)

Only the read-outcome bookkeeping of `EncoderReader.read_raw_data` is
relevant to the claims: the I2C transaction and packet decoding are
external I/O, abstracted into a per-poll success flag.  In the source,
`total_reads += 1` is executed only after the packet has been read and
unpacked successfully; the `except` path increments `read_errors` without
touching `total_reads`. -/

structure EncoderReader where
  read_errors : ℕ
  total_reads : ℕ
deriving Repr, DecidableEq

def EncoderReader.mk0 : EncoderReader := { read_errors := 0, total_reads := 0 }

/-- Counter effect of one `read_raw_data` call; `ok` tells whether the I2C
transaction and unpacking succeeded. -/
def EncoderReader.read_raw_data (r : EncoderReader) (ok : Bool) : EncoderReader :=
  if ok then { r with total_reads := r.total_reads + 1 }
  else { r with read_errors := r.read_errors + 1 }

/-- `EncoderReader.get_error_rate`. -/
def EncoderReader.get_error_rate (r : EncoderReader) : ℚ :=
  if r.total_reads = 0 then 0
  else (r.read_errors : ℚ) / (r.total_reads : ℚ)

/-- Counter state after a sequence of polls with the given outcomes. -/
def EncoderReader.runPolls (r : EncoderReader) (outcomes : List Bool) : EncoderReader :=
  outcomes.foldl EncoderReader.read_raw_data r

/-! ### `TurntableState` and `DJDeck` (`rpi/mixer.py`) -/

inductive TurntableState where
  | CALIBRATING
  | NORMAL_SPEED
  | MODULATING_SPEED
deriving Repr, DecidableEq

/-- One decoded encoder packet, restricted to the fields `DJDeck` reads for
deck 1 (`velocity_key = enc1_velocity`, the estimator output;
`enc1_velocity_raw` is the raw ESP32 value, stored but unused by the
controller) plus the decoded button flags used by the mixer. -/
structure EncoderData where
  enc1_position : ℤ
  enc1_velocity : ℚ
  enc1_velocity_raw : ℚ
  timestamp : ℤ
  buttons : List Bool := []
deriving Repr, DecidableEq

instance : Inhabited EncoderData := ⟨⟨0, 0, 0, 0, []⟩⟩

/-- A `set_property` call performed on the external GStreamer objects:
`tempo` on the pitch element, `volume` on the mixer pad, `level` on the
freeverb element. -/
inductive SinkWrite where
  | tempo (value : ℚ)
  | volume (value : ℚ)
  | level (value : ℚ)
deriving Repr, DecidableEq

/-- Deck 1 of `DJMixer` (fields that the controller logic reads/writes).
`volume_pad` records whether a volume pad was attached (`None` in
single-deck mode). -/
structure DJDeck where
  state : TurntableState
  current_rate : ℚ
  current_volume : ℚ
  encoder_read_history : List EncoderData
  volume_pad : Bool
deriving Repr, DecidableEq

/-- `DJDeck.__init__`: state `NORMAL_SPEED`, rate 1.0, volume
`DEFAULT_VOLUME`, empty history (`deque(maxlen=100)`). -/
def DJDeck.mk0 (volume_pad : Bool) : DJDeck :=
  { state := TurntableState.NORMAL_SPEED
    current_rate := 1
    current_volume := DEFAULT_VOLUME
    encoder_read_history := []
    volume_pad := volume_pad }

/-- Arithmetic mean of the velocity estimates stored in the history, as
computed by `_update_state_turntable`:
`sum(prev_velocities) / len(prev_velocities)`. -/
def avgRecentVelocity (history : List EncoderData) : ℚ :=
  let prev_velocities := history.map (fun e => e.enc1_velocity)
  prev_velocities.sum / (prev_velocities.length : ℚ)

/-- `DJDeck._update_state_turntable`. -/
def DJDeck.update_state_turntable (d : DJDeck) : DJDeck :=
  if d.encoder_read_history.isEmpty then d
  else
    let avg_recent_velocity := avgRecentVelocity d.encoder_read_history
    if NORMAL_SPEED_MIN < avg_recent_velocity ∧ avg_recent_velocity < NORMAL_SPEED_MAX then
      { d with state := TurntableState.NORMAL_SPEED }
    else
      { d with state := TurntableState.MODULATING_SPEED }

/-- `DJDeck._update_rate`: returns the updated deck and the writes made to
the pitch element (`self.rate_element.set_property("tempo", ...)`). -/
def DJDeck.update_rate (d : DJDeck) : DJDeck × List SinkWrite :=
  match d.state with
  | TurntableState.CALIBRATING => (d, [])
  | TurntableState.NORMAL_SPEED =>
      if d.current_rate ≠ 1 then
        ({ d with current_rate := 1 }, [SinkWrite.tempo 1])
      else
        (d, [])
  | TurntableState.MODULATING_SPEED =>
      let velocity := (d.encoder_read_history.getLastD default).enc1_velocity
      let rate_change := velocity / VELOCITY_SCALE
      let new_rate := 1 + rate_change
      let new_rate := max MIN_PLAYBACK_RATE (min MAX_PLAYBACK_RATE new_rate)
      if 1/100 < |new_rate - d.current_rate| then
        let d1 := { d with current_rate := new_rate }
        (d1, [SinkWrite.tempo (max (1/100) d1.current_rate)])
      else
        (d, [])

/-- The history append performed at the top of `process_encoder_data`:
`self.encoder_read_history.append(data)` on the `deque(maxlen=100)`. -/
def DJDeck.appendData (d : DJDeck) (data : EncoderData) : DJDeck :=
  { d with encoder_read_history := dequeAppend d.encoder_read_history 100 data }

/-- `DJDeck.process_encoder_data`: append the sample to the bounded history,
run the state machine, run the rate controller. -/
def DJDeck.process_encoder_data (d : DJDeck) (data : Option EncoderData) :
    DJDeck × List SinkWrite :=
  match data with
  | none => (d, [])
  | some data =>
      let d1 := d.appendData data
      let d2 := d1.update_state_turntable
      d2.update_rate

/-- `DJDeck.set_volume`: clamp to `[0,1]`; no-op if the change is below the
0.001 epsilon; otherwise update `current_volume` and, when a volume pad is
attached, write it to the sink. -/
def DJDeck.set_volume (d : DJDeck) (volume : ℚ) : DJDeck × List SinkWrite :=
  let old_volume := d.current_volume
  let new_volume := max 0 (min 1 volume)
  if |new_volume - old_volume| < 1/1000 then
    (d, [])
  else
    let d1 := { d with current_volume := new_volume }
    if d1.volume_pad then
      (d1, [SinkWrite.volume d1.current_volume])
    else
      (d1, [])

/-- `DJDeck.adjust_volume`. -/
def DJDeck.adjust_volume (d : DJDeck) (delta : ℚ) : DJDeck × List SinkWrite :=
  d.set_volume (d.current_volume + delta)

/-- The runtime-state bounds the deck is expected to maintain:
`current_volume ∈ [0, 1]` and `current_rate ∈ [MIN_PLAYBACK_RATE,
MAX_PLAYBACK_RATE]`. -/
def DJDeck.bounds_ok (d : DJDeck) : Prop :=
  0 ≤ d.current_volume ∧ d.current_volume ≤ 1 ∧
    MIN_PLAYBACK_RATE ≤ d.current_rate ∧ d.current_rate ≤ MAX_PLAYBACK_RATE

/-- Fold `process_encoder_data` over a list of successfully decoded samples
(the deck component of a run of ticks). -/
def DJDeck.run (d : DJDeck) (datas : List EncoderData) : DJDeck :=
  datas.foldl (fun dk data => (dk.process_encoder_data (some data)).1) d

/-! ### `DJMixer` polling tick (`rpi/mixer.py`), single-deck mode
(`DUAL_DECK_MODE = False` in the observed config, so `deck2 = None`).

`VOLUME_STEP = 0.05` and `REVERB_AMOUNT = 0.5` are the instance constants
set in `DJMixer.__init__`.  Button flags are addressed positionally (the
source indexes `BUTTON_NAMES[0..5]`; the names themselves are irrelevant
to the logic). -/

def MIXER_VOLUME_STEP : ℚ := 1/20
def MIXER_REVERB_AMOUNT : ℚ := 1/2

structure DJMixer where
  deck1 : DJDeck
  encoder : EncoderReader
  last_button_states : List Bool
  reverb1_on : Bool
  current_reverb1 : ℚ
deriving Repr, DecidableEq

/-- `DJMixer.set_deck1_reverb`: clamp to `[0,1]`, 0.001-epsilon change
guard, then write `level` on the freeverb element. -/
def DJMixer.set_deck1_reverb (m : DJMixer) (amount : ℚ) : DJMixer × List SinkWrite :=
  let old_reverb := m.current_reverb1
  let new_reverb := max 0 (min 1 amount)
  if |new_reverb - old_reverb| < 1/1000 then
    (m, [])
  else
    let m1 := { m with current_reverb1 := new_reverb }
    (m1, [SinkWrite.level m1.current_reverb1])

/-- `DJMixer._process_button_data`, single-deck part: volume up/down
(buttons 0/1, fire while held) and the deck-1 reverb toggle (button 4,
fires on the rising edge); finally `last_button_states` is replaced. -/
def DJMixer.process_button_data (m : DJMixer) (data : EncoderData) :
    DJMixer × List SinkWrite :=
  let current_buttons := data.buttons
  let r1 :=
    if current_buttons.getD 0 false then m.deck1.adjust_volume MIXER_VOLUME_STEP
    else (m.deck1, [])
  let r2 :=
    if current_buttons.getD 1 false then r1.1.adjust_volume (-MIXER_VOLUME_STEP)
    else (r1.1, [])
  let m1 := { m with deck1 := r2.1 }
  let newly_pressed4 :=
    current_buttons.getD 4 false && !(m.last_button_states.getD 4 false)
  let r3 :=
    if newly_pressed4 then
      let m2 := { m1 with reverb1_on := !m1.reverb1_on }
      m2.set_deck1_reverb (if m2.reverb1_on then MIXER_REVERB_AMOUNT else 0)
    else (m1, [])
  ({ r3.1 with last_button_states := current_buttons },
   r1.2 ++ r2.2 ++ r3.2)

/-- `DJMixer._on_i2c_update`, single-deck mode.  The outcome of
`self.deck1.encoder.read()` is passed in as `poll` (`none` models a failed
I2C read); its counter side effect on the reader is applied first.
Returns the new mixer state, the sink writes of the tick, and the boolean
handed back to the GLib timer (`True` keeps the polling loop running). -/
def DJMixer.on_i2c_update (m : DJMixer) (poll : Option EncoderData) :
    DJMixer × List SinkWrite × Bool :=
  let m0 := { m with encoder := m.encoder.read_raw_data poll.isSome }
  match poll with
  | none => (m0, [], true)
  | some data1 =>
      let r1 := m0.deck1.process_encoder_data (some data1)
      let r2 := { m0 with deck1 := r1.1 }.process_button_data data1
      (r2.1, r1.2 ++ r2.2, true)

/-! ### Concrete example states used by witnesses and counterexamples -/

/-- A deck in `MODULATING_SPEED` whose latest stored velocity estimate is
250 counts/s (the spec scenario `velocityScale=100, MIN=0, MAX=3,
velocity=250`). -/
def deckC2 : DJDeck :=
  { state := TurntableState.MODULATING_SPEED
    current_rate := 1
    current_volume := 1
    encoder_read_history := [⟨0, 250, 250, 0, []⟩]
    volume_pad := true }

/-- A deck with a volume pad attached and current volume 0.5. -/
def deckC9 : DJDeck :=
  { state := TurntableState.NORMAL_SPEED
    current_rate := 1
    current_volume := 1/2
    encoder_read_history := []
    volume_pad := true }

/-- A sample whose stored velocity estimate is −200 counts/s (outside the
normal band, and large enough to clamp the candidate rate to
`MIN_PLAYBACK_RATE`). -/
def dataC4 : EncoderData := ⟨0, -200, -200, 0, []⟩

/-- A sample whose stored velocity estimate is −100 counts/s (strictly
inside the normal band `(-120, -80)`). -/
def dataC5 : EncoderData := ⟨0, -100, -100, 0, []⟩

/-! ### Helper lemmas: `dequeAppend` and bounded folds -/

theorem dequeAppend_eq_drop (xs : List α) (n : ℕ) (x : α) :
    dequeAppend xs n x = (xs ++ [x]).drop ((xs.length + 1) - n) := by
  unfold dequeAppend
  simp only [List.length_append, List.length_singleton]
  split
  · rfl
  · next h =>
      have : xs.length + 1 - n = 0 := by omega
      rw [this, List.drop_zero]

theorem dequeAppend_length (xs : List α) (n : ℕ) (x : α) :
    (dequeAppend xs n x).length = min (xs.length + 1) n := by
  rw [dequeAppend_eq_drop, List.length_drop]
  simp only [List.length_append, List.length_singleton]
  omega

theorem dequeAppend_ne_nil (xs : List α) (n : ℕ) (x : α) (hn : 1 ≤ n) :
    dequeAppend xs n x ≠ [] := by
  intro h
  have := dequeAppend_length xs n x
  rw [h] at this
  simp at this
  omega

/-- Keeping only the last `n` elements commutes with later appends: dropping
all but the last `n` of `l` first, then of the extended list, is the same as
doing it once at the end. -/
theorem drop_last_append (l m : List α) (n : ℕ) :
    (l.drop (l.length - n) ++ m).drop (((l.drop (l.length - n)).length + m.length) - n)
      = (l ++ m).drop ((l.length + m.length) - n) := by
  rcases le_or_lt l.length n with h | h
  · have h0 : l.length - n = 0 := by omega
    rw [h0, List.drop_zero]
  · have hlen : (l.drop (l.length - n)).length = n := by
      rw [List.length_drop]; omega
    rw [hlen]
    have h1 : n + m.length - n = m.length := by omega
    rw [h1]
    rw [List.drop_append_eq_append_drop, List.drop_append_eq_append_drop]
    have h2 : (l.drop (l.length - n)).drop m.length = l.drop (l.length + m.length - n) := by
      rw [List.drop_drop]
      congr 1
      omega
    rw [h2, hlen]
    congr 2
    omega

/-- Closed form for iterated `dequeAppend`: the result is the last ≤ `n`
elements of the concatenation. -/
theorem foldl_dequeAppend (n : ℕ) (xs l : List α) (h : xs.length ≤ n) :
    l.foldl (fun acc x => dequeAppend acc n x) xs
      = (xs ++ l).drop ((xs.length + l.length) - n) := by
  induction l generalizing xs with
  | nil =>
      simp only [List.foldl_nil, List.append_nil, List.length_nil, Nat.add_zero]
      have h0 : xs.length - n = 0 := by omega
      rw [h0, List.drop_zero]
  | cons y l ih =>
      simp only [List.foldl_cons]
      have hlen : (dequeAppend xs n y).length ≤ n := by
        rw [dequeAppend_length]; omega
      rw [ih _ hlen]
      have hd : dequeAppend xs n y = (xs ++ [y]).drop ((xs ++ [y]).length - n) := by
        rw [dequeAppend_eq_drop]
        congr 1
        simp
      rw [hd, drop_last_append (xs ++ [y]) l n]
      have hla : (xs ++ [y]) ++ l = xs ++ y :: l := by simp
      rw [hla]
      have hamt : ((xs ++ [y]).length + l.length) - n = (xs.length + (y :: l).length) - n := by
        simp only [List.length_append, List.length_cons, List.length_nil]
        omega
      rw [hamt]

/-! ### Helper lemmas: averages of lists -/

theorem list_sum_lt_mul {l : List ℚ} {b : ℚ} (hb : ∀ x ∈ l, x < b) (hne : l ≠ []) :
    l.sum < b * l.length := by
  induction l with
  | nil => exact absurd rfl hne
  | cons x xs ih =>
      rcases eq_or_ne xs [] with h | h
      · subst h
        simpa using hb x (by simp)
      · have h1 : x < b := hb x (by simp)
        have h2 : xs.sum < b * xs.length := ih (fun y hy => hb y (by simp [hy])) h
        simp only [List.sum_cons, List.length_cons]
        push_cast
        nlinarith

theorem list_mul_lt_sum {l : List ℚ} {a : ℚ} (ha : ∀ x ∈ l, a < x) (hne : l ≠ []) :
    a * l.length < l.sum := by
  induction l with
  | nil => exact absurd rfl hne
  | cons x xs ih =>
      rcases eq_or_ne xs [] with h | h
      · subst h
        simpa using ha x (by simp)
      · have h1 : a < x := ha x (by simp)
        have h2 : a * xs.length < xs.sum := ih (fun y hy => ha y (by simp [hy])) h
        simp only [List.sum_cons, List.length_cons]
        push_cast
        nlinarith

/-- The arithmetic mean of the stored velocity estimates of a nonempty
history whose estimates all lie strictly inside `(a, b)` lies strictly
inside `(a, b)`. -/
theorem avgRecentVelocity_mem_band {h : List EncoderData} {a b : ℚ} (hne : h ≠ [])
    (hband : ∀ e ∈ h, a < e.enc1_velocity ∧ e.enc1_velocity < b) :
    a < avgRecentVelocity h ∧ avgRecentVelocity h < b := by
  unfold avgRecentVelocity
  have hlen : (0 : ℚ) < ((h.map (fun e => e.enc1_velocity)).length : ℚ) := by
    simp only [List.length_map]
    exact_mod_cast List.length_pos.2 hne
  have hnem : h.map (fun e => e.enc1_velocity) ≠ [] := by
    simpa using hne
  constructor
  · rw [lt_div_iff₀ hlen]
    have := list_mul_lt_sum (l := h.map (fun e => e.enc1_velocity)) (a := a)
      (fun x hx => by
        obtain ⟨e, he, rfl⟩ := List.mem_map.1 hx
        exact (hband e he).1) hnem
    linarith
  · rw [div_lt_iff₀ hlen]
    have := list_sum_lt_mul (l := h.map (fun e => e.enc1_velocity)) (b := b)
      (fun x hx => by
        obtain ⟨e, he, rfl⟩ := List.mem_map.1 hx
        exact (hband e he).2) hnem
    linarith

/-! ### Helper lemmas: `DJDeck` field bookkeeping -/

theorem update_state_turntable_history (d : DJDeck) :
    (d.update_state_turntable).encoder_read_history = d.encoder_read_history := by
  simp only [DJDeck.update_state_turntable]
  split
  · rfl
  · split <;> rfl

theorem update_state_turntable_rate (d : DJDeck) :
    (d.update_state_turntable).current_rate = d.current_rate := by
  simp only [DJDeck.update_state_turntable]
  split
  · rfl
  · split <;> rfl

theorem update_state_turntable_volume (d : DJDeck) :
    (d.update_state_turntable).current_volume = d.current_volume := by
  simp only [DJDeck.update_state_turntable]
  split
  · rfl
  · split <;> rfl

theorem update_rate_history (d : DJDeck) :
    (d.update_rate).1.encoder_read_history = d.encoder_read_history := by
  simp only [DJDeck.update_rate]
  split <;> first
    | rfl
    | (split <;> rfl)

theorem update_rate_state (d : DJDeck) :
    (d.update_rate).1.state = d.state := by
  simp only [DJDeck.update_rate]
  split <;> first
    | rfl
    | (split <;> rfl)

theorem update_rate_volume (d : DJDeck) :
    (d.update_rate).1.current_volume = d.current_volume := by
  simp only [DJDeck.update_rate]
  split <;> first
    | rfl
    | (split <;> rfl)

/-- `process_encoder_data` on a successful sample: the new history is the
deque-append of the sample. -/
theorem process_some_history (d : DJDeck) (data : EncoderData) :
    ((d.process_encoder_data (some data)).1).encoder_read_history
      = dequeAppend d.encoder_read_history 100 data := by
  simp only [DJDeck.process_encoder_data, DJDeck.appendData]
  rw [update_rate_history, update_state_turntable_history]

/-- `process_encoder_data` on a successful sample: the new state is decided
by the band test on the average stored velocity of the new history. -/
theorem process_some_state (d : DJDeck) (data : EncoderData) :
    ((d.process_encoder_data (some data)).1).state
      = (if NORMAL_SPEED_MIN < avgRecentVelocity (dequeAppend d.encoder_read_history 100 data) ∧
            avgRecentVelocity (dequeAppend d.encoder_read_history 100 data) < NORMAL_SPEED_MAX
         then TurntableState.NORMAL_SPEED
         else TurntableState.MODULATING_SPEED) := by
  simp only [DJDeck.process_encoder_data, DJDeck.appendData]
  rw [update_rate_state]
  simp only [DJDeck.update_state_turntable]
  have hne : dequeAppend d.encoder_read_history 100 data ≠ [] :=
    dequeAppend_ne_nil _ _ _ (by norm_num)
  simp only [List.isEmpty_iff]
  split
  · next h => exact absurd h hne
  · split
    · next h => simp [if_pos h]
    · next h => simp [if_neg h]

/-! ### Helper lemmas: runs of deck ticks -/

theorem run_cons (d : DJDeck) (x : EncoderData) (datas : List EncoderData) :
    d.run (x :: datas) = ((d.process_encoder_data (some x)).1).run datas := rfl

theorem run_concat (d : DJDeck) (datas : List EncoderData) (x : EncoderData) :
    d.run (datas ++ [x]) = ((d.run datas).process_encoder_data (some x)).1 := by
  unfold DJDeck.run
  rw [List.foldl_append]
  rfl

/-- The history after a run of successful ticks is the last ≤ 100 samples of
the concatenated stream. -/
theorem run_history (d : DJDeck) (datas : List EncoderData) :
    (d.run datas).encoder_read_history
      = datas.foldl (fun acc x => dequeAppend acc 100 x) d.encoder_read_history := by
  induction datas generalizing d with
  | nil => rfl
  | cons x xs ih =>
      rw [run_cons, ih, List.foldl_cons, process_some_history]

theorem run_history_drop (d : DJDeck) (datas : List EncoderData)
    (h : d.encoder_read_history.length ≤ 100) :
    (d.run datas).encoder_read_history
      = (d.encoder_read_history ++ datas).drop
          ((d.encoder_read_history.length + datas.length) - 100) := by
  rw [run_history]
  exact foldl_dequeAppend 100 _ _ h

/-- In `NORMAL_SPEED`, `_update_rate` leaves the rate at exactly 1.0
(hard reset when it differed, no-op when it was already 1.0). -/
theorem update_rate_normal_rate (d : DJDeck) (h : d.state = TurntableState.NORMAL_SPEED) :
    (d.update_rate).1.current_rate = 1 := by
  simp only [DJDeck.update_rate, h]
  split
  · rfl
  · next hne =>
      simp only [ne_eq, not_not] at hne
      exact hne

/-! ### Helper lemmas: `EncoderSmoother` -/

theorem smoother_update_positions (s : EncoderSmoother) (p t : ℤ) :
    (s.update p t).2.positions = dequeAppend s.positions s.window_size p := by
  simp only [EncoderSmoother.update]
  split
  · rfl
  · split <;> rfl

theorem smoother_update_timestamps (s : EncoderSmoother) (p t : ℤ) :
    (s.update p t).2.timestamps = dequeAppend s.timestamps s.window_size t := by
  simp only [EncoderSmoother.update]
  split
  · rfl
  · split <;> rfl

theorem smoother_update_window (s : EncoderSmoother) (p t : ℤ) :
    (s.update p t).2.window_size = s.window_size := by
  simp only [EncoderSmoother.update]
  split
  · rfl
  · split <;> rfl

/-- Fewer than 2 samples after the append: return 0, `last_velocity`
untouched. -/
theorem smoother_update_lt2 (s : EncoderSmoother) (p t : ℤ)
    (h : (dequeAppend s.positions s.window_size p).length < 2) :
    (s.update p t).1 = 0 ∧ (s.update p t).2.last_velocity = s.last_velocity := by
  simp only [EncoderSmoother.update]
  rw [if_pos h]
  exact ⟨rfl, rfl⟩

/-- At least 2 samples and non-degenerate elapsed time: return the
window-wide difference quotient and store it. -/
theorem smoother_update_compute (s : EncoderSmoother) (p t : ℤ)
    (h2 : 2 ≤ (dequeAppend s.positions s.window_size p).length)
    (hdt : 1/1000 <
      ((((dequeAppend s.timestamps s.window_size t).getLastD 0 : ℤ) : ℚ)
        - (((dequeAppend s.timestamps s.window_size t).headD 0 : ℤ) : ℚ)) / 1000) :
    (s.update p t).1
        = ((((dequeAppend s.positions s.window_size p).getLastD 0 : ℤ) : ℚ)
            - (((dequeAppend s.positions s.window_size p).headD 0 : ℤ) : ℚ))
          / (((((dequeAppend s.timestamps s.window_size t).getLastD 0 : ℤ) : ℚ)
            - (((dequeAppend s.timestamps s.window_size t).headD 0 : ℤ) : ℚ)) / 1000) ∧
      (s.update p t).2.last_velocity = (s.update p t).1 := by
  simp only [EncoderSmoother.update]
  rw [if_neg (by omega)]
  rw [if_pos hdt]
  exact ⟨rfl, rfl⟩

/-- At least 2 samples but degenerate elapsed time: sticky fallback, the
previous `last_velocity` is returned and kept. -/
theorem smoother_update_sticky (s : EncoderSmoother) (p t : ℤ)
    (h2 : 2 ≤ (dequeAppend s.positions s.window_size p).length)
    (hdt : ((((dequeAppend s.timestamps s.window_size t).getLastD 0 : ℤ) : ℚ)
        - (((dequeAppend s.timestamps s.window_size t).headD 0 : ℤ) : ℚ)) / 1000 ≤ 1/1000) :
    (s.update p t).1 = s.last_velocity ∧
      (s.update p t).2.last_velocity = s.last_velocity := by
  simp only [EncoderSmoother.update]
  rw [if_neg (by omega)]
  rw [if_neg (by exact not_lt.2 hdt)]
  exact ⟨rfl, rfl⟩

theorem smoother_runState_nil (s : EncoderSmoother) : s.runState [] = s := rfl

theorem smoother_runState_cons (s : EncoderSmoother) (pt : ℤ × ℤ) (l : List (ℤ × ℤ)) :
    s.runState (pt :: l) = ((s.update pt.1 pt.2).2).runState l := rfl

theorem smoother_runState_concat (s : EncoderSmoother) (l : List (ℤ × ℤ)) (pt : ℤ × ℤ) :
    s.runState (l ++ [pt]) = ((s.runState l).update pt.1 pt.2).2 := by
  unfold EncoderSmoother.runState
  rw [List.foldl_append]
  rfl

theorem smoother_runOutputs_concat (s : EncoderSmoother) (l : List (ℤ × ℤ)) (pt : ℤ × ℤ) :
    s.runOutputs (l ++ [pt]) = s.runOutputs l ++ [((s.runState l).update pt.1 pt.2).1] := by
  induction l generalizing s with
  | nil => rfl
  | cons y ys ih =>
      simp only [List.cons_append, EncoderSmoother.runOutputs, List.append_eq]
      rw [ih, smoother_runState_cons]

theorem smoother_runState_window (s : EncoderSmoother) (l : List (ℤ × ℤ)) :
    (s.runState l).window_size = s.window_size := by
  induction l generalizing s with
  | nil => rfl
  | cons y ys ih =>
      rw [smoother_runState_cons, ih, smoother_update_window]

theorem smoother_runState_positions (s : EncoderSmoother) (l : List (ℤ × ℤ)) :
    (s.runState l).positions
      = (l.map Prod.fst).foldl (fun acc x => dequeAppend acc s.window_size x) s.positions := by
  induction l generalizing s with
  | nil => rfl
  | cons y ys ih =>
      rw [smoother_runState_cons, ih, smoother_update_window, smoother_update_positions]
      rfl

theorem smoother_runState_timestamps (s : EncoderSmoother) (l : List (ℤ × ℤ)) :
    (s.runState l).timestamps
      = (l.map Prod.snd).foldl (fun acc x => dequeAppend acc s.window_size x) s.timestamps := by
  induction l generalizing s with
  | nil => rfl
  | cons y ys ih =>
      rw [smoother_runState_cons, ih, smoother_update_window, smoother_update_timestamps]
      rfl

theorem smoother_mk0_runState_positions (w : ℕ) (l : List (ℤ × ℤ)) :
    ((EncoderSmoother.mk0 w).runState l).positions
      = (l.map Prod.fst).drop (l.length - w) := by
  rw [smoother_runState_positions]
  have := foldl_dequeAppend w ([] : List ℤ) (l.map Prod.fst) (by simp)
  simpa using this

theorem smoother_mk0_runState_timestamps (w : ℕ) (l : List (ℤ × ℤ)) :
    ((EncoderSmoother.mk0 w).runState l).timestamps
      = (l.map Prod.snd).drop (l.length - w) := by
  rw [smoother_runState_timestamps]
  have := foldl_dequeAppend w ([] : List ℤ) (l.map Prod.snd) (by simp)
  simpa using this

theorem smoother_runOutputs_length (s : EncoderSmoother) (l : List (ℤ × ℤ)) :
    (s.runOutputs l).length = l.length := by
  induction l generalizing s with
  | nil => rfl
  | cons y ys ih =>
      simp only [EncoderSmoother.runOutputs, List.length_cons]
      rw [ih]

theorem getLastD_append_singleton (l : List α) (x d : α) :
    (l ++ [x]).getLastD d = x :=
  List.getLastD_concat _ _ _

theorem headD_replicate (n : ℕ) (a d : α) (h : 1 ≤ n) :
    (List.replicate n a).headD d = a := by
  cases n with
  | zero => omega
  | succ m => rfl

theorem getLastD_replicate (n : ℕ) (a d : α) (h : 1 ≤ n) :
    (List.replicate n a).getLastD d = a := by
  cases n with
  | zero => omega
  | succ m =>
      rw [List.replicate_succ']
      exact getLastD_append_singleton _ _ _

theorem smoother_mk0_positions_length (w : ℕ) (l : List (ℤ × ℤ)) :
    ((EncoderSmoother.mk0 w).runState l).positions.length = min l.length w := by
  rw [smoother_mk0_runState_positions, List.length_drop, List.length_map]
  omega

/-- With at least 2 samples in the window, the value that `update` stores in
`last_velocity` is exactly the value it returns. -/
theorem smoother_update_output_eq (s : EncoderSmoother) (p t : ℤ)
    (h2 : 2 ≤ (dequeAppend s.positions s.window_size p).length) :
    (s.update p t).2.last_velocity = (s.update p t).1 := by
  simp only [EncoderSmoother.update]
  rw [if_neg (by omega)]
  split
  · rfl
  · rfl

/-- Sticky-fallback bookkeeping: starting from a fresh smoother with window
size ≥ 2, after any nonempty run `last_velocity` equals the last returned
velocity. -/
theorem smoother_last_velocity_eq_last_output (w : ℕ) (hw : 2 ≤ w)
    (l : List (ℤ × ℤ)) (hl : l ≠ []) :
    ((EncoderSmoother.mk0 w).runState l).last_velocity
      = ((EncoderSmoother.mk0 w).runOutputs l).getLastD 0 := by
  obtain ⟨ys, pt, rfl⟩ : ∃ ys pt, l = ys ++ [pt] := by
    rcases List.eq_nil_or_concat l with h | ⟨ys, pt, h⟩
    · exact absurd h hl
    · exact ⟨ys, pt, by simpa [List.concat_eq_append] using h⟩
  rw [smoother_runState_concat, smoother_runOutputs_concat, getLastD_append_singleton]
  rcases eq_or_ne ys [] with h | h
  · subst h
    have hlt : (dequeAppend ((EncoderSmoother.mk0 w).runState []).positions
        ((EncoderSmoother.mk0 w).runState []).window_size pt.1).length < 2 := by
      rw [smoother_runState_nil, dequeAppend_length]
      simp only [EncoderSmoother.mk0, List.length_nil]
      omega
    obtain ⟨h1, h2⟩ := smoother_update_lt2 _ pt.1 pt.2 hlt
    rw [h1, h2]
    rfl
  · have hp2 : 2 ≤ (dequeAppend ((EncoderSmoother.mk0 w).runState ys).positions
        ((EncoderSmoother.mk0 w).runState ys).window_size pt.1).length := by
      rw [dequeAppend_length, smoother_runState_window, smoother_mk0_positions_length]
      have hys : 1 ≤ ys.length := List.length_pos.2 h
      simp only [EncoderSmoother.mk0]
      omega
    exact smoother_update_output_eq _ pt.1 pt.2 hp2

/-- Window saturation with identical samples: once the `w`-th copy of the
same `(position, timestamp)` sample arrives, the whole window is that
sample, `deltaTime` degenerates to 0, and the estimator returns the value
it returned on the previous sample. -/
theorem smoother_saturation (w : ℕ) (hw : 2 ≤ w) (l : List (ℤ × ℤ)) (p t : ℤ) :
    ((EncoderSmoother.mk0 w).runOutputs (l ++ List.replicate w (p, t))).getLastD 0
      = ((EncoderSmoother.mk0 w).runOutputs (l ++ List.replicate (w - 1) (p, t))).getLastD 0 := by
  have hrep : List.replicate w (p, t) = List.replicate (w - 1) (p, t) ++ [(p, t)] := by
    conv_lhs => rw [show w = (w - 1) + 1 by omega]
    exact List.replicate_succ' _ _
  rw [hrep, ← List.append_assoc]
  rw [smoother_runOutputs_concat, getLastD_append_singleton]
  have hl1 : (l ++ List.replicate (w - 1) (p, t)).length = l.length + (w - 1) := by
    simp
  have hwin : ((EncoderSmoother.mk0 w).runState (l ++ List.replicate (w - 1) (p, t))).window_size
      = w := smoother_runState_window _ _
  have hc : (EncoderSmoother.mk0 w).runState ((l ++ List.replicate (w - 1) (p, t)) ++ [(p, t)])
      = (((EncoderSmoother.mk0 w).runState (l ++ List.replicate (w - 1) (p, t))).update p t).2 :=
    smoother_runState_concat _ _ _
  have hTd : dequeAppend
      ((EncoderSmoother.mk0 w).runState (l ++ List.replicate (w - 1) (p, t))).timestamps
      ((EncoderSmoother.mk0 w).runState (l ++ List.replicate (w - 1) (p, t))).window_size t
        = List.replicate w t := by
    rw [← smoother_update_timestamps _ p t, ← hc,
      List.append_assoc, ← hrep, smoother_mk0_runState_timestamps]
    simp only [List.map_append, List.map_replicate, List.length_append,
      List.length_replicate]
    have hamt : l.length + w - w = (l.map Prod.snd).length := by
      rw [List.length_map]; omega
    rw [hamt, List.drop_left]
  have hp2 : 2 ≤ (dequeAppend
      ((EncoderSmoother.mk0 w).runState (l ++ List.replicate (w - 1) (p, t))).positions
      ((EncoderSmoother.mk0 w).runState (l ++ List.replicate (w - 1) (p, t))).window_size
      p).length := by
    rw [dequeAppend_length, hwin, smoother_mk0_positions_length, hl1]
    omega
  have hdt : ((((dequeAppend
      ((EncoderSmoother.mk0 w).runState (l ++ List.replicate (w - 1) (p, t))).timestamps
      ((EncoderSmoother.mk0 w).runState (l ++ List.replicate (w - 1) (p, t))).window_size
      t).getLastD 0 : ℤ) : ℚ)
        - (((dequeAppend
      ((EncoderSmoother.mk0 w).runState (l ++ List.replicate (w - 1) (p, t))).timestamps
      ((EncoderSmoother.mk0 w).runState (l ++ List.replicate (w - 1) (p, t))).window_size
      t).headD 0 : ℤ) : ℚ)) / 1000 ≤ 1/1000 := by
    rw [hTd, getLastD_replicate _ _ _ (by omega), headD_replicate _ _ _ (by omega)]
    norm_num
  obtain ⟨ho, _⟩ := smoother_update_sticky _ p t hp2 hdt
  rw [ho]
  apply smoother_last_velocity_eq_last_output w hw
  intro hcon
  have := congrArg List.length hcon
  rw [hl1] at this
  simp at this
  omega

/-! ### Helper lemmas: `set_volume` -/

theorem set_volume_noop_case (d : DJDeck) (v : ℚ)
    (h : |max 0 (min 1 v) - d.current_volume| < 1/1000) :
    d.set_volume v = (d, []) := by
  simp only [DJDeck.set_volume]
  rw [if_pos h]

theorem set_volume_change_case (d : DJDeck) (v : ℚ)
    (h : ¬ |max 0 (min 1 v) - d.current_volume| < 1/1000) :
    (d.set_volume v).1 = { d with current_volume := max 0 (min 1 v) } := by
  simp only [DJDeck.set_volume]
  rw [if_neg h]
  split <;> rfl

/-- The second of two identical `set_volume` calls is always a no-op. -/
theorem set_volume_twice_noop (d : DJDeck) (v : ℚ) :
    ((d.set_volume v).1).set_volume v = ((d.set_volume v).1, []) := by
  by_cases h : |max 0 (min 1 v) - d.current_volume| < 1/1000
  · rw [set_volume_noop_case d v h]
    exact set_volume_noop_case d v h
  · rw [set_volume_change_case d v h]
    apply set_volume_noop_case
    simp

theorem set_volume_writes_le_one (d : DJDeck) (v : ℚ) :
    (d.set_volume v).2.length ≤ 1 := by
  simp only [DJDeck.set_volume]
  split
  · simp
  · split <;> simp

theorem set_volume_writes_eq_one_iff (d : DJDeck) (v : ℚ) :
    (d.set_volume v).2.length = 1 ↔
      (¬ |max 0 (min 1 v) - d.current_volume| < 1/1000 ∧ d.volume_pad = true) := by
  by_cases h : |max 0 (min 1 v) - d.current_volume| < 1/1000
  · rw [set_volume_noop_case d v h]
    simp only [List.length_nil]
    constructor
    · intro h0
      exact absurd h0 (by norm_num)
    · rintro ⟨hn, -⟩
      exact absurd h hn
  · simp only [DJDeck.set_volume]
    rw [if_neg h]
    by_cases hp : d.volume_pad = true
    · rw [if_pos hp]
      simp only [List.length_cons, List.length_nil]
      exact ⟨fun _ => ⟨h, hp⟩, fun _ => trivial⟩
    · rw [if_neg hp]
      simp only [List.length_nil]
      constructor
      · intro h0
        exact absurd h0 (by norm_num)
      · rintro ⟨-, hph⟩
        exact absurd hph hp

/-! ### Claim theorems -/

/-- Claim C1, counterexample.  The claim asserts that feeding positions
`[0,0,5,5,12]` at device timestamps `[0,20,40,60,80]` ms (host clock in
step, `timeoutMs = 500`) through the predictive tracker yields the velocity
sequence `[0, 0, 250, 250, 350]`.  It does not: `last_timestamp` is updated
only when the position changes, so each velocity divides by the time since
the last observed position change (40 ms here), not since the previous
sample (20 ms). -/
theorem C1_counterexample :
    (PredictiveVelocityTracker.mk0 500).runOutputs c1Samples ≠ [0, 0, 250, 250, 350] := by
  have h : (PredictiveVelocityTracker.mk0 500).runOutputs c1Samples
      = [0, 0, 125, 125, 175] := by
    norm_num [PredictiveVelocityTracker.runOutputs, PredictiveVelocityTracker.update,
      PredictiveVelocityTracker.mk0, c1Samples]
  rw [h]
  norm_num

/-- Claim C1, amended.  With the predictive strategy and `timeoutMs = 500`,
positions `[0,0,5,5,12]` at device timestamps `[0,20,40,60,80]` ms (host
clock advancing in step, so the timeout never fires) produce the velocity
sequence `[0, 0, 125, 125, 175]` counts/s: step changes occur exactly when
the position changes, unchanged readings hold the last computed value, and
each step's Δt is measured from the timestamp of the last position change
(5/0.040 s = 125, 7/0.040 s = 175). -/
theorem C1_amended_scenario :
    (PredictiveVelocityTracker.mk0 500).runOutputs c1Samples = [0, 0, 125, 125, 175] := by
  norm_num [PredictiveVelocityTracker.runOutputs, PredictiveVelocityTracker.update,
    PredictiveVelocityTracker.mk0, c1Samples]

/-- Claim C2.  In MODULATING_SPEED with latest stored velocity estimate `v`
and previous rate `r`: the candidate rate is `1 + v/VELOCITY_SCALE`,
clamped to `[MIN_PLAYBACK_RATE, MAX_PLAYBACK_RATE]`; if the clamped
candidate differs from `r` by more than 0.01 it is stored as the new
`current_rate` and `max(0.01, ·)` of it is written to the sink, otherwise
`current_rate` is unchanged and no sink write occurs. -/
theorem C2_modulating_rate (d : DJDeck) (v candidate clamped : ℚ)
    (hstate : d.state = TurntableState.MODULATING_SPEED)
    (hv : v = (d.encoder_read_history.getLastD default).enc1_velocity)
    (hcand : candidate = 1 + v / VELOCITY_SCALE)
    (hclamp : clamped = max MIN_PLAYBACK_RATE (min MAX_PLAYBACK_RATE candidate)) :
    (1/100 < |clamped - d.current_rate| →
        d.update_rate = ({ d with current_rate := clamped },
          [SinkWrite.tempo (max (1/100) clamped)])) ∧
    (¬ 1/100 < |clamped - d.current_rate| →
        d.update_rate = (d, [])) := by
  subst hv
  subst hcand
  subst hclamp
  constructor
  · intro hcond
    simp only [DJDeck.update_rate, hstate]
    rw [if_pos hcond]
  · intro hcond
    simp only [DJDeck.update_rate, hstate]
    rw [if_neg hcond]

/-- Claim C2 witness: the spec scenario `velocityScale = 100, MIN = 0,
MAX = 3, velocity = 250` gives candidate `3.5`, clamped to `3.0` and
written. -/
theorem C2_witness :
    deckC2.state = TurntableState.MODULATING_SPEED ∧
    (1:ℚ)/100 < |(3:ℚ) - deckC2.current_rate| ∧
    deckC2.update_rate = ({ deckC2 with current_rate := 3 },
      [SinkWrite.tempo (max (1/100) 3)]) := by
  refine ⟨rfl, by norm_num [deckC2], ?_⟩
  exact (C2_modulating_rate deckC2 250 (7/2) 3 rfl rfl
    (by norm_num [VELOCITY_SCALE])
    (by norm_num [MIN_PLAYBACK_RATE, MAX_PLAYBACK_RATE, max_def, min_def])).1
    (by norm_num [deckC2])

/-- Claim C3.  On a successful tick, after the sample is appended, the deck
state becomes NORMAL_SPEED exactly when the arithmetic mean of the stored
velocity estimates over the retained history lies strictly between
`NORMAL_SPEED_MIN` and `NORMAL_SPEED_MAX`, and MODULATING_SPEED otherwise;
CALIBRATING is never produced by this rule. -/
theorem C3_state_transition (d : DJDeck) (data : EncoderData) :
    ((((d.process_encoder_data (some data)).1).state = TurntableState.NORMAL_SPEED) ↔
      (NORMAL_SPEED_MIN
          < avgRecentVelocity (dequeAppend d.encoder_read_history 100 data) ∧
        avgRecentVelocity (dequeAppend d.encoder_read_history 100 data)
          < NORMAL_SPEED_MAX)) ∧
    ((d.process_encoder_data (some data)).1).state ≠ TurntableState.CALIBRATING := by
  have hs := process_some_state d data
  constructor
  · rw [hs]
    split
    · next hband => simp [hband]
    · next hband => simp [hband]
  · rw [hs]
    split <;> simp

/-- Claim C6.  When the I2C poll fails (`read()` returns nothing), the tick
is a no-op for the deck: `current_rate`, `current_volume`, `state` and the
encoder history are unchanged, no sink write happens, and the callback
returns `True` so the polling loop keeps running. -/
theorem C6_failed_poll_noop (m : DJMixer) :
    ((m.on_i2c_update none).1).deck1.current_rate = m.deck1.current_rate ∧
    ((m.on_i2c_update none).1).deck1.current_volume = m.deck1.current_volume ∧
    ((m.on_i2c_update none).1).deck1.state = m.deck1.state ∧
    ((m.on_i2c_update none).1).deck1.encoder_read_history
      = m.deck1.encoder_read_history ∧
    (m.on_i2c_update none).2.1 = [] ∧
    (m.on_i2c_update none).2.2 = true :=
  ⟨rfl, rfl, rfl, rfl, rfl, rfl⟩

/-- Claim C7, code evaluation.  The claim (and §7 of the design) says the
exposed error rate is `errors / totalPolls`, 0.0 when no polls have
occurred.  In the source, `total_reads` is incremented only after a
successful read, so `get_error_rate` divides by the number of *successful*
polls: after one failed poll it reports 0 (claim: 1/1 = 1), and after one
failure plus one success it reports 1/1 = 1 (claim: 1/2). -/
theorem C7_error_rate_eval :
    (EncoderReader.mk0.runPolls [false]).get_error_rate = 0 ∧
    (EncoderReader.mk0.runPolls [false, true]).get_error_rate = 1 ∧
    (EncoderReader.mk0.runPolls [false, true]).read_errors = 1 ∧
    (EncoderReader.mk0.runPolls [false, true]).total_reads = 1 := by
  refine ⟨?_, ?_, rfl, rfl⟩ <;>
    norm_num [EncoderReader.runPolls, EncoderReader.read_raw_data,
      EncoderReader.get_error_rate, EncoderReader.mk0, List.foldl_cons, List.foldl_nil]

/-- Claim C9, counterexample.  Calling `set_volume(v)` twice with `v` equal
to the current volume produces zero sink writes, not exactly one: the first
call is already below the 0.001 change epsilon and returns without touching
the sink. -/
theorem C9_counterexample :
    deckC9.set_volume (1/2) = (deckC9, []) ∧
    ¬ (((deckC9.set_volume (1/2)).2
        ++ (((deckC9.set_volume (1/2)).1).set_volume (1/2)).2).length = 1) := by
  have h : deckC9.set_volume (1/2) = (deckC9, []) :=
    set_volume_noop_case _ _ (by norm_num [deckC9])
  have h2 : ((deckC9, ([] : List SinkWrite)).1).set_volume (1/2) = (deckC9, []) := h
  refine ⟨h, ?_⟩
  rw [h, h2]
  simp

/-- Claim C9, amended.  For every volume `v`, calling `set_volume v` twice
in succession performs at most one sink write, and the second call is
always a no-op (state and sink untouched); exactly one write happens iff
the first call moves the clamped volume by at least the 0.001 epsilon and a
volume pad is attached. -/
theorem C9_amended_volume_idempotence (d : DJDeck) (v : ℚ) :
    ((d.set_volume v).1).set_volume v = ((d.set_volume v).1, []) ∧
    (d.set_volume v).2.length ≤ 1 ∧
    ((d.set_volume v).2.length = 1 ↔
      (¬ |max 0 (min 1 v) - d.current_volume| < 1/1000 ∧ d.volume_pad = true)) :=
  ⟨set_volume_twice_noop d v, set_volume_writes_le_one d v,
    set_volume_writes_eq_one_iff d v⟩

/-! ### Remaining helper lemmas (rate bounds, concrete evaluations) -/

theorem update_rate_modulating_writes (d : DJDeck)
    (h : d.state = TurntableState.MODULATING_SPEED) (x : ℚ)
    (hx : SinkWrite.tempo x ∈ (d.update_rate).2) :
    x = max (1/100) (max MIN_PLAYBACK_RATE (min MAX_PLAYBACK_RATE
      (1 + (d.encoder_read_history.getLastD default).enc1_velocity / VELOCITY_SCALE))) := by
  simp only [DJDeck.update_rate, h] at hx
  by_cases hc : 1/100 < |max MIN_PLAYBACK_RATE (min MAX_PLAYBACK_RATE
      (1 + (d.encoder_read_history.getLastD default).enc1_velocity / VELOCITY_SCALE))
      - d.current_rate|
  · rw [if_pos hc] at hx
    simp only [List.mem_singleton, SinkWrite.tempo.injEq] at hx
    exact hx
  · rw [if_neg hc] at hx
    simp at hx

theorem update_rate_rate_bounds (d : DJDeck)
    (h : MIN_PLAYBACK_RATE ≤ d.current_rate ∧ d.current_rate ≤ MAX_PLAYBACK_RATE) :
    MIN_PLAYBACK_RATE ≤ (d.update_rate).1.current_rate ∧
      (d.update_rate).1.current_rate ≤ MAX_PLAYBACK_RATE := by
  simp only [DJDeck.update_rate]
  split
  · exact h
  · split
    · constructor <;> norm_num [MIN_PLAYBACK_RATE, MAX_PLAYBACK_RATE]
    · exact h
  · split
    · constructor
      · exact le_max_left _ _
      · apply max_le
        · norm_num [MIN_PLAYBACK_RATE, MAX_PLAYBACK_RATE]
        · exact min_le_left _ _
    · exact h

theorem set_volume_bounds (d : DJDeck) (v : ℚ) (h : d.bounds_ok) :
    ((d.set_volume v).1).bounds_ok := by
  unfold DJDeck.bounds_ok at h ⊢
  by_cases hc : |max 0 (min 1 v) - d.current_volume| < 1/1000
  · rw [set_volume_noop_case d v hc]
    exact h
  · rw [set_volume_change_case d v hc]
    refine ⟨le_max_left _ _, ?_, h.2.2.1, h.2.2.2⟩
    apply max_le
    · norm_num
    · exact min_le_left _ _

theorem process_bounds (d : DJDeck) (data : Option EncoderData) (h : d.bounds_ok) :
    ((d.process_encoder_data data).1).bounds_ok := by
  cases data with
  | none => exact h
  | some data =>
      have hsplit : d.process_encoder_data (some data)
          = ((d.appendData data).update_state_turntable).update_rate := rfl
      rw [hsplit]
      unfold DJDeck.bounds_ok at h ⊢
      have hvol : ((((d.appendData data).update_state_turntable).update_rate).1).current_volume
          = d.current_volume := by
        rw [update_rate_volume, update_state_turntable_volume]
        rfl
      have hrate := update_rate_rate_bounds ((d.appendData data).update_state_turntable)
        (by rw [update_state_turntable_rate]; exact ⟨h.2.2.1, h.2.2.2⟩)
      exact ⟨by rw [hvol]; exact h.1, by rw [hvol]; exact h.2.1, hrate.1, hrate.2⟩

/-- Concrete evaluation: one tick on a freshly constructed deck with a
−200 counts/s estimate clamps the candidate rate `1 − 2 = −1` to
`MIN_PLAYBACK_RATE = 0`, stores `current_rate = 0`, and emits
`max(0.01, 0) = 0.01` to the sink. -/
theorem processC4_eval :
    (DJDeck.mk0 true).process_encoder_data (some dataC4)
      = ({ state := TurntableState.MODULATING_SPEED, current_rate := 0,
            current_volume := 1, encoder_read_history := [dataC4],
            volume_pad := true },
         [SinkWrite.tempo (1/100)]) := by
  norm_num [DJDeck.process_encoder_data, DJDeck.appendData,
    DJDeck.update_state_turntable, DJDeck.update_rate, DJDeck.mk0, dequeAppend,
    avgRecentVelocity, dataC4, NORMAL_SPEED_MIN, NORMAL_SPEED_MAX,
    MIN_PLAYBACK_RATE, MAX_PLAYBACK_RATE, VELOCITY_SCALE, DEFAULT_VOLUME,
    max_def, min_def, abs]

/-- Claim C4.  Whenever a tick leaves the deck in MODULATING_SPEED and
wrote a rate to the sink, the written value lies in
`[max(MIN_PLAYBACK_RATE, 0.01), MAX_PLAYBACK_RATE]`; in particular it is
positive, never 0 and never negative. -/
theorem C4_sink_write_bounds (d : DJDeck) (data : EncoderData) (x : ℚ)
    (hstate : ((d.process_encoder_data (some data)).1).state
      = TurntableState.MODULATING_SPEED)
    (hmem : SinkWrite.tempo x ∈ (d.process_encoder_data (some data)).2) :
    max MIN_PLAYBACK_RATE (1/100) ≤ x ∧ x ≤ MAX_PLAYBACK_RATE ∧ 0 < x := by
  have hsplit : d.process_encoder_data (some data)
      = ((d.appendData data).update_state_turntable).update_rate := rfl
  rw [hsplit] at hstate hmem
  have hd2state : ((d.appendData data).update_state_turntable).state
      = TurntableState.MODULATING_SPEED := by
    rw [← update_rate_state]
    exact hstate
  have hx := update_rate_modulating_writes _ hd2state x hmem
  subst hx
  refine ⟨?_, ?_, ?_⟩
  · have h1 : max MIN_PLAYBACK_RATE (1/100 : ℚ) = 1/100 := by
      norm_num [MIN_PLAYBACK_RATE, max_def]
    rw [h1]
    exact le_max_left _ _
  · apply max_le
    · norm_num [MAX_PLAYBACK_RATE]
    · apply max_le
      · norm_num [MIN_PLAYBACK_RATE, MAX_PLAYBACK_RATE]
      · exact min_le_left _ _
  · exact lt_of_lt_of_le (by norm_num) (le_max_left _ _)

/-- Claim C4 witness: the concrete tick of `processC4_eval` is in
MODULATING_SPEED, writes `0.01`, and `0.01` satisfies the bounds. -/
theorem C4_witness :
    (((DJDeck.mk0 true).process_encoder_data (some dataC4)).1).state
        = TurntableState.MODULATING_SPEED ∧
    SinkWrite.tempo (1/100) ∈ ((DJDeck.mk0 true).process_encoder_data (some dataC4)).2 ∧
    (max MIN_PLAYBACK_RATE (1/100) ≤ (1/100 : ℚ) ∧
      (1/100 : ℚ) ≤ MAX_PLAYBACK_RATE ∧ (0 : ℚ) < 1/100) := by
  have h1 : (((DJDeck.mk0 true).process_encoder_data (some dataC4)).1).state
      = TurntableState.MODULATING_SPEED := by
    rw [processC4_eval]
  have h2 : SinkWrite.tempo (1/100)
      ∈ ((DJDeck.mk0 true).process_encoder_data (some dataC4)).2 := by
    rw [processC4_eval]
    simp
  exact ⟨h1, h2, C4_sink_write_bounds _ _ _ h1 h2⟩

/-- Claim C5.  If every sample of a run of at least 100 (the history
window size) consecutive successful ticks carries a stored velocity
estimate strictly inside `(NORMAL_SPEED_MIN, NORMAL_SPEED_MAX)`, then at
the end of the run the deck is in NORMAL_SPEED with `current_rate`
exactly 1; moreover the NORMAL_SPEED branch suppresses the sink write
whenever the rate already equals 1.  The hypothesis
`d.encoder_read_history.length ≤ 100` is the deque capacity invariant,
which every reachable deck satisfies. -/
theorem C5_convergence (d : DJDeck) (datas : List EncoderData)
    (hd : d.encoder_read_history.length ≤ 100)
    (hlen : 100 ≤ datas.length)
    (hband : ∀ e ∈ datas,
      NORMAL_SPEED_MIN < e.enc1_velocity ∧ e.enc1_velocity < NORMAL_SPEED_MAX) :
    (d.run datas).state = TurntableState.NORMAL_SPEED ∧
      (d.run datas).current_rate = 1 ∧
      (∀ d2 : DJDeck, d2.state = TurntableState.NORMAL_SPEED → d2.current_rate = 1 →
        d2.update_rate = (d2, [])) := by
  have hsupp : ∀ d2 : DJDeck, d2.state = TurntableState.NORMAL_SPEED →
      d2.current_rate = 1 → d2.update_rate = (d2, []) := by
    intro d2 h1 h2
    simp only [DJDeck.update_rate, h1]
    rw [if_neg]
    simp only [ne_eq, not_not]
    exact h2
  obtain ⟨ds, x, rfl⟩ : ∃ ds x, datas = ds ++ [x] := by
    rcases List.eq_nil_or_concat datas with h | ⟨ds, x, h⟩
    · subst h
      simp at hlen
    · exact ⟨ds, x, by simpa [List.concat_eq_append] using h⟩
  have hdrop := run_history_drop d (ds ++ [x]) hd
  have hKbig : d.encoder_read_history.length
      ≤ (d.encoder_read_history.length + (ds ++ [x]).length) - 100 := by
    simp only [List.length_append, List.length_cons, List.length_nil] at hlen ⊢
    omega
  have hmemH : ∀ e ∈ (d.run (ds ++ [x])).encoder_read_history, e ∈ ds ++ [x] := by
    rw [hdrop]
    intro e he
    rw [List.drop_append_eq_append_drop] at he
    rcases List.mem_append.1 he with h1 | h1
    · rw [List.drop_eq_nil_of_le hKbig] at h1
      simp at h1
    · exact List.mem_of_mem_drop h1
  have hconc := run_concat d ds x
  have happend_eq : dequeAppend (d.run ds).encoder_read_history 100 x
      = (d.run (ds ++ [x])).encoder_read_history := by
    rw [hconc, process_some_history]
  have hne : dequeAppend (d.run ds).encoder_read_history 100 x ≠ [] :=
    dequeAppend_ne_nil _ _ _ (by norm_num)
  have hbandH : ∀ e ∈ dequeAppend (d.run ds).encoder_read_history 100 x,
      NORMAL_SPEED_MIN < e.enc1_velocity ∧ e.enc1_velocity < NORMAL_SPEED_MAX := by
    intro e he
    apply hband
    apply hmemH
    rw [← happend_eq]
    exact he
  have havg := avgRecentVelocity_mem_band hne hbandH
  have hstate : (d.run (ds ++ [x])).state = TurntableState.NORMAL_SPEED := by
    rw [hconc, process_some_state]
    rw [if_pos havg]
  refine ⟨hstate, ?_, hsupp⟩
  rw [hconc]
  have hsplit : (d.run ds).process_encoder_data (some x)
      = (((d.run ds).appendData x).update_state_turntable).update_rate := rfl
  rw [hsplit]
  apply update_rate_normal_rate
  rw [← update_rate_state, ← hsplit, ← hconc]
  exact hstate

/-- Claim C5 witness: 100 ticks of a −100 counts/s estimate on a fresh
deck end in NORMAL_SPEED with rate exactly 1. -/
theorem C5_witness :
    100 ≤ (List.replicate 100 dataC5).length ∧
    ((DJDeck.mk0 true).run (List.replicate 100 dataC5)).state
      = TurntableState.NORMAL_SPEED ∧
    ((DJDeck.mk0 true).run (List.replicate 100 dataC5)).current_rate = 1 := by
  have h := C5_convergence (DJDeck.mk0 true) (List.replicate 100 dataC5)
    (by simp [DJDeck.mk0])
    (by simp)
    (by
      intro e he
      rw [List.eq_of_mem_replicate he]
      norm_num [dataC5, NORMAL_SPEED_MIN, NORMAL_SPEED_MAX])
  exact ⟨by simp, h.1, h.2.1⟩

/-- Claim C8.  The windowed estimator returns 0 while fewer than 2 samples
are held; with ≥ 2 samples it returns
`(newest.position − oldest.position) / ((newest.ts − oldest.ts)/1000)`
when the elapsed time exceeds the 1 ms minimum, and on degenerate elapsed
time it returns the sticky previous value unchanged; in particular, when
the window saturates with `window_size` identical samples the estimate
equals the previously returned one. -/
theorem C8_windowed_estimator :
    (∀ (s : EncoderSmoother) (p t : ℤ),
        (dequeAppend s.positions s.window_size p).length < 2 →
        (s.update p t).1 = 0) ∧
    (∀ (s : EncoderSmoother) (p t : ℤ),
        2 ≤ (dequeAppend s.positions s.window_size p).length →
        1/1000 < ((((dequeAppend s.timestamps s.window_size t).getLastD 0 : ℤ) : ℚ)
          - (((dequeAppend s.timestamps s.window_size t).headD 0 : ℤ) : ℚ)) / 1000 →
        (s.update p t).1
          = ((((dequeAppend s.positions s.window_size p).getLastD 0 : ℤ) : ℚ)
              - (((dequeAppend s.positions s.window_size p).headD 0 : ℤ) : ℚ))
            / (((((dequeAppend s.timestamps s.window_size t).getLastD 0 : ℤ) : ℚ)
              - (((dequeAppend s.timestamps s.window_size t).headD 0 : ℤ) : ℚ)) / 1000)) ∧
    (∀ (s : EncoderSmoother) (p t : ℤ),
        2 ≤ (dequeAppend s.positions s.window_size p).length →
        ((((dequeAppend s.timestamps s.window_size t).getLastD 0 : ℤ) : ℚ)
          - (((dequeAppend s.timestamps s.window_size t).headD 0 : ℤ) : ℚ)) / 1000
            ≤ 1/1000 →
        (s.update p t).1 = s.last_velocity ∧
          (s.update p t).2.last_velocity = s.last_velocity) ∧
    (∀ (w : ℕ) (l : List (ℤ × ℤ)) (p t : ℤ), 2 ≤ w →
        ((EncoderSmoother.mk0 w).runOutputs (l ++ List.replicate w (p, t))).getLastD 0
          = ((EncoderSmoother.mk0 w).runOutputs
              (l ++ List.replicate (w - 1) (p, t))).getLastD 0) := by
  refine ⟨?_, ?_, ?_, ?_⟩
  · intro s p t h
    exact (smoother_update_lt2 s p t h).1
  · intro s p t h2 hdt
    exact (smoother_update_compute s p t h2 hdt).1
  · intro s p t h2 hdt
    exact smoother_update_sticky s p t h2 hdt
  · intro w l p t hw
    exact smoother_saturation w hw l p t

/-- Claim C8 witness: concrete instances of the four cases — fresh window
returns 0; two samples 40 ms apart give 125 counts/s; identical timestamps
return the stored 42 unchanged; a saturated window of identical samples
repeats the previous output. -/
theorem C8_witness :
    ((EncoderSmoother.mk0 3).update 5 10).1 = 0 ∧
    ((⟨[0], [0], 3, 0⟩ : EncoderSmoother).update 5 40).1 = 125 ∧
    ((⟨[0], [0], 3, 42⟩ : EncoderSmoother).update 0 0).1 = 42 ∧
    ((EncoderSmoother.mk0 2).runOutputs
        ([] ++ List.replicate 2 ((1 : ℤ), (1 : ℤ)))).getLastD 0
      = ((EncoderSmoother.mk0 2).runOutputs
        ([] ++ List.replicate (2 - 1) ((1 : ℤ), (1 : ℤ)))).getLastD 0 := by
  refine ⟨?_, ?_, ?_, ?_⟩
  · exact C8_windowed_estimator.1 (EncoderSmoother.mk0 3) 5 10
      (by norm_num [EncoderSmoother.mk0, dequeAppend])
  · have h := C8_windowed_estimator.2.1 ⟨[0], [0], 3, 0⟩ 5 40
      (by norm_num [dequeAppend])
      (by norm_num [dequeAppend])
    rw [h]
    norm_num [dequeAppend]
  · exact (C8_windowed_estimator.2.2.1 ⟨[0], [0], 3, 42⟩ 0 0
      (by norm_num [dequeAppend])
      (by norm_num [dequeAppend])).1
  · exact C8_windowed_estimator.2.2.2 2 [] 1 1 (by norm_num)

/-- Claim C10.  The deck invariant `current_volume ∈ [0,1]` and
`current_rate ∈ [MIN_PLAYBACK_RATE, MAX_PLAYBACK_RATE]` holds after
construction and is preserved by `process_encoder_data`, `set_volume` and
`adjust_volume`; and the stored `current_rate` can be exactly 0 while the
emitted sink value is floored at 0.01. -/
theorem C10_runtime_bounds :
    (∀ pad : Bool, (DJDeck.mk0 pad).bounds_ok) ∧
    (∀ (d : DJDeck) (data : Option EncoderData),
        d.bounds_ok → ((d.process_encoder_data data).1).bounds_ok) ∧
    (∀ (d : DJDeck) (v : ℚ), d.bounds_ok → ((d.set_volume v).1).bounds_ok) ∧
    (∀ (d : DJDeck) (delta : ℚ), d.bounds_ok → ((d.adjust_volume delta).1).bounds_ok) ∧
    ((((DJDeck.mk0 true).process_encoder_data (some dataC4)).1).current_rate = 0 ∧
      ((DJDeck.mk0 true).process_encoder_data (some dataC4)).2
        = [SinkWrite.tempo (1/100)]) := by
  refine ⟨?_, process_bounds, set_volume_bounds, ?_, ?_, ?_⟩
  · intro pad
    norm_num [DJDeck.bounds_ok, DJDeck.mk0, DEFAULT_VOLUME,
      MIN_PLAYBACK_RATE, MAX_PLAYBACK_RATE]
  · intro d delta h
    unfold DJDeck.adjust_volume
    exact set_volume_bounds d _ h
  · rw [processC4_eval]
  · rw [processC4_eval]

/-- Claim C10 witness: the invariant holds for a fresh deck and is kept by
a `set_volume 2` call (clamped to 1). -/
theorem C10_witness :
    (DJDeck.mk0 true).bounds_ok ∧ (((DJDeck.mk0 true).set_volume 2).1).bounds_ok := by
  have h0 : (DJDeck.mk0 true).bounds_ok := by
    norm_num [DJDeck.bounds_ok, DJDeck.mk0, DEFAULT_VOLUME,
      MIN_PLAYBACK_RATE, MAX_PLAYBACK_RATE]
  exact ⟨h0, C10_runtime_bounds.2.2.1 _ 2 h0⟩

end BoxDJ
